import Mathlib

/-!
Shallow embedding of the native list runtime (listobj.py) and the slice
arithmetic helpers (slicing.py).

The generated code operates on a reference-counted payload holding a
`{ allocated (capacity), size }` header followed by `allocated` item slots.
We model the payload as a record whose item storage is a total function
`Int → α`: raw, unchecked loads and stores (the `gep`/`load`/`store`
sequences emitted by `getitem`/`setitem`) are thus well-defined on any
index, exactly as the machine accesses are, while the logically valid
slots are those below `size`.  Reallocation preserves stored contents, so
the model keeps `data` unchanged across `resize`.  Errors raised through
`call_conv.return_user_exc` become an `Except` error channel.
-/

namespace NumbaList

/-- Runtime error conditions raised by the generated list code, keyed by the
exception class and message used at the raise site. -/
inductive ListErr where
  | indexError (msg : String)
  | valueError (msg : String)
  | notImplementedError (msg : String)
  | memoryError (msg : String)
  deriving DecidableEq

/-- Arithmetic shift right by `n` bits on a signed machine integer
(`builder.ashr`): floor division by `2 ^ n`. -/
def ashr (x : Int) (n : Nat) : Int := Int.fdiv x (2 ^ n)

/-- `slicing.fix_index` / `_ListPayloadMixin.fix_index`: add `size` to a
negative index, leave nonnegative indices untouched. -/
def fix_index (idx size : Int) : Int := if idx < 0 then idx + size else idx

/-- The list payload: capacity (`allocated`), logical `size`, and the item
slots, modelled as total memory `Int → α`. -/
structure ListPayload (α : Type) where
  allocated : Int
  size : Int
  data : Int → α

variable {α : Type}

/-- `_ListPayloadMixin.getitem`: raw unchecked load at `idx`. -/
def getitem (st : ListPayload α) (idx : Int) : α := st.data idx

/-- `_ListPayloadMixin.setitem`: raw unchecked store at `idx`. -/
def setitem (st : ListPayload α) (idx : Int) (v : α) : ListPayload α :=
  { st with data := fun j => if j = idx then v else st.data j }

/-- `_ListPayloadMixin.is_out_of_bounds`: `idx < 0 or idx >= size`. -/
def is_out_of_bounds (idx size : Int) : Bool :=
  decide (idx < 0) || decide (size ≤ idx)

/-- `_ListPayloadMixin.clamp_index`: clamp into `[0, size]`; the overflow
store is emitted last and therefore wins. -/
def clamp_index (idx size : Int) : Int :=
  if size ≤ idx then size else if idx < 0 then 0 else idx

/-- One bound of `slicing.fix_slice` (`fix_bound`): apply `fix_index`, then
replace a still-negative value by `lower_repl` and a value `>= size` by
`upper_repl`.  Both comparisons are made against the `fix_index`-ed value;
the overflow store is emitted last and wins when both fire. -/
def fix_bound (bound size lower_repl upper_repl : Int) : Int :=
  let b := fix_index bound size
  if size ≤ b then upper_repl else if b < 0 then lower_repl else b

/-- `slicing.fix_slice`: normalize `start` and `stop` for a sequence of the
given `size`.  Negative step clamps to `-1` / `size - 1`, otherwise to
`0` / `size`. -/
def fix_slice (start stop step size : Int) : Int × Int :=
  if step < 0 then
    (fix_bound start size (-1) (size - 1), fix_bound stop size (-1) (size - 1))
  else
    (fix_bound start size 0 size, fix_bound stop size 0 size)

/-- `slicing.get_slice_length`: number of indices a normalized slice visits.
`builder.sdiv` truncates toward zero, i.e. `Int.tdiv`. -/
def get_slice_length (start stop step : Int) : Int :=
  let delta := stop - start
  let dividend := if step < 0 then delta + 1 else delta - 1
  let nominal_length := 1 + Int.tdiv dividend step
  let is_zero_length : Bool :=
    if step < 0 then decide (0 ≤ delta) else decide (delta ≤ 0)
  if is_zero_length then 0 else nominal_length

/-- `ListInstance.move`: overlap-safe relocation (`memmove`) of `count`
contiguous items from `src_idx` to `dest_idx` within the payload. -/
def move (st : ListPayload α) (dest_idx src_idx count : Int) : ListPayload α :=
  { st with data := fun j =>
      if dest_idx ≤ j ∧ j < dest_idx + count then
        st.data (src_idx + (j - dest_idx))
      else st.data j }

/-- `ListInstance.allocate`: fresh payload with `allocated = nitems`,
`size = 0`; the item slots are uninitialized (modelled as `default`).
The overflow / out-of-memory failure paths abort before the payload
exists, so a completed `allocate` is modelled directly. -/
def allocate (α : Type) [Inhabited α] (nitems : Int) : ListPayload α :=
  { allocated := nitems, size := 0, data := fun _ => default }

/-- `ListInstance.resize`: amortized grow/shrink policy.  Returns the new
payload together with a flag recording whether `_payload_realloc` ran.
Both branch conditions are computed up front from the old `allocated`;
the shrink branch reallocates to exactly `new_size`, the grow branch to
`8 + (new_size + (new_size >> 2))`; finally `size` is set unconditionally. -/
def resize (st : ListPayload α) (new_size : Int) : ListPayload α × Bool :=
  let is_too_small : Bool := decide (st.allocated < new_size)
  let is_too_large : Bool := decide (new_size < ashr st.allocated 2)
  let st1 := if is_too_large then { st with allocated := new_size } else st
  let st2 :=
    if is_too_small then { st1 with allocated := 8 + (new_size + ashr new_size 2) }
    else st1
  ({ st2 with size := new_size }, is_too_large || is_too_small)

/-- `list_append`: `resize(size + 1)` then store the item at the old end. -/
def list_append (st : ListPayload α) (item : α) : ListPayload α :=
  let n := st.size
  let st1 := (resize st (n + 1)).1
  setitem st1 n item

/-- Payload invariant from the data model: `0 <= size <= allocated`. -/
def payload_inv (st : ListPayload α) : Prop :=
  0 ≤ st.size ∧ st.size ≤ st.allocated

instance (st : ListPayload α) : Decidable (payload_inv st) := by
  unfold payload_inv; infer_instance

/-- `getitem_list` (single-element `getitem`): fix the index, then load.
The generated code contains no bounds guard and no error branch, so the
result is always `Except.ok`. -/
def getitem_list (st : ListPayload α) (index : Int) : Except ListErr α :=
  Except.ok (getitem st (fix_index index st.size))

/-- `setitem_list` (single-element `setitem`): fix the index, then store.
No bounds guard, no error branch. -/
def setitem_list (st : ListPayload α) (index : Int) (value : α) :
    Except ListErr (ListPayload α) :=
  Except.ok (setitem st (fix_index index st.size) value)

/-- `iternext_listiter`: one `advance()` of a list iterator.  The iterator
state is its cursor `index`; `size` is re-read from the shared payload on
every call.  Yields `(some item, index + 1)` while `index < size`, and
`(none, index)` otherwise (the cursor is not modified on exhaustion). -/
def iternext_listiter (payload : ListPayload α) (index : Int) : Option α × Int :=
  if index < payload.size then (some (getitem payload index), index + 1)
  else (none, index)

/-- `list_pop` with an index argument: `guard_zero` on the size, then
`guard_index` on the fixed index, then load the item, shift the tail left
with `move`, and `resize` down by one. -/
def list_pop (st : ListPayload α) (i : Int) : Except ListErr (α × ListPayload α) :=
  let idx := fix_index i st.size
  let n := st.size
  if n = 0 then Except.error (ListErr.indexError ("pop from empty list"))
  else if is_out_of_bounds idx n then
    Except.error (ListErr.indexError ("pop index out of range"))
  else
    let res := getitem st idx
    let m := n - 1
    let st1 := move st idx (idx + 1) (m - idx)
    let st2 := (resize st1 m).1
    Except.ok (res, st2)

/-- The write loop of the extended-slice (`step != 1`) branch of slice
assignment (`for_range_slice_generic` paired with an ascending `count`):
iteration `k` stores `src[count = k]` at index `start + k * step`.  The
loop performs `get_slice_length` iterations, per that function's
docstring. -/
def write_slice_loop (dest src : ListPayload α) (start step : Int) :
    Nat → ListPayload α
  | 0 => dest
  | Nat.succ k =>
      let d := write_slice_loop dest src start step k
      setitem d (start + (k : Int) * step) (getitem src (k : Int))

/-- The copy loop of the contiguous (`step == 1`) branch of slice
assignment (`for_range(src_size)`): iteration `k` stores `src[k]` at
`k + dest_offset`. -/
def copy_range_loop (dest src : ListPayload α) (dest_offset : Int) :
    Nat → ListPayload α
  | 0 => dest
  | Nat.succ k =>
      let d := copy_range_loop dest src dest_offset k
      setitem d ((k : Int) + dest_offset) (getitem src (k : Int))

/-- `setitem_list` for a slice argument (slice assignment).  Guards the
slice (`step == 0` rejected), normalizes it against the destination size,
then either takes the resizing `step == 1` path (grow/move or move/shrink,
then contiguous copy) or the extended path (`step != 1`), which raises a
size-mismatch `ValueError` unless `len(src)` equals the slice length and
otherwise overwrites the traversed positions in order. -/
def setitem_list_slice (dest : ListPayload α) (start stop step : Int)
    (src : ListPayload α) : Except ListErr (ListPayload α) :=
  if step = 0 then Except.error (ListErr.valueError ("slice step cannot be zero"))
  else
    let ns := fix_slice start stop step dest.size
    let src_size := src.size
    let avail_size := get_slice_length ns.1 ns.2 step
    let size_delta := src_size - avail_size
    if step = 1 then
      let real_stop := ns.1 + avail_size
      let tail_size := dest.size - real_stop
      let d1 :=
        if 0 < size_delta then
          let d := (resize dest (dest.size + size_delta)).1
          move d (real_stop + size_delta) real_stop tail_size
        else dest
      let d2 :=
        if size_delta < 0 then
          let d := move d1 (real_stop + size_delta) real_stop tail_size
          (resize d (d.size + size_delta)).1
        else d1
      Except.ok (copy_range_loop d2 src ns.1 src_size.toNat)
    else
      if size_delta ≠ 0 then
        Except.error
          (ListErr.valueError ("cannot resize extended list slice with step != 1"))
      else
        Except.ok (write_slice_loop dest src ns.1 step avail_size.toNat)

/-- The copy loop of `_list_extend_list` in the aliased case where source
and destination are the same payload: iteration `k` loads index `k` from
the current payload state and stores it at `k + dest_size`. -/
def extend_self_loop (st : ListPayload α) (dest_size : Int) :
    Nat → ListPayload α
  | 0 => st
  | Nat.succ k =>
      let s := extend_self_loop st dest_size k
      setitem s ((k : Int) + dest_size) (getitem s (k : Int))

/-- `_list_extend_list` specialised to `dest` and `src` denoting the same
payload (the dataflow of `a += a`): both sizes are read once up front,
the payload is resized to their sum (reallocation preserves the existing
prefix), `size` is stored again, and the copy loop runs over the
pre-resize source size with reads going through the shared (current)
payload. -/
def list_extend_list_self (st : ListPayload α) : ListPayload α :=
  let src_size := st.size
  let dest_size := st.size
  let nitems := src_size + dest_size
  let st1 := (resize st nitems).1
  let st2 := { st1 with size := nitems }
  extend_self_loop st2 dest_size src_size.toNat

/-- `list_add_inplace` (`a += b`) delegates to `_list_extend_list`; this is
its `a += a` instance. -/
def list_add_inplace_self (st : ListPayload α) : ListPayload α :=
  list_extend_list_self st

/-- Concrete payload holding the list `[1, 2, 3]` (slots outside the live
region read as `7`, standing for arbitrary heap memory). -/
def exList3 : ListPayload Int :=
  { allocated := 3, size := 3,
    data := fun j => if j = 0 then 1 else if j = 1 then 2 else if j = 2 then 3 else 7 }

/-- Concrete payload holding the list `[40, 50]`. -/
def exSrc2 : ListPayload Int :=
  { allocated := 2, size := 2,
    data := fun j => if j = 0 then 40 else if j = 1 then 50 else 7 }

/-! ### Helper lemmas -/

theorem ashr_two_eq_ediv (x : Int) : ashr x 2 = x / 4 := by
  unfold ashr
  norm_num [Int.fdiv_eq_ediv]

theorem ashr_two_nonneg {x : Int} (h : 0 ≤ x) : 0 ≤ ashr x 2 := by
  rw [ashr_two_eq_ediv]; omega

theorem ashr_two_le {x : Int} (h : 0 ≤ x) : ashr x 2 ≤ x := by
  rw [ashr_two_eq_ediv]; omega

/-- Closed form of `resize`: the final `allocated` field, and the flag
recording whether a reallocation happened.  Both branch conditions are
evaluated against the pre-call `allocated`. -/
theorem resize_eq (st : ListPayload α) (ns : Int) :
    resize st ns =
      ({ st with
          allocated :=
            if st.allocated < ns then 8 + (ns + ashr ns 2)
            else if ns < ashr st.allocated 2 then ns
            else st.allocated,
          size := ns },
        decide (ns < ashr st.allocated 2) || decide (st.allocated < ns)) := by
  unfold resize
  by_cases h1 : st.allocated < ns <;> by_cases h2 : ns < ashr st.allocated 2 <;>
    simp [h1, h2]

theorem resize_data (st : ListPayload α) (ns : Int) :
    ((resize st ns).1).data = st.data := by
  rw [resize_eq]

theorem resize_size (st : ListPayload α) (ns : Int) :
    ((resize st ns).1).size = ns := by
  rw [resize_eq]

theorem setitem_size (st : ListPayload α) (i : Int) (v : α) :
    (setitem st i v).size = st.size := rfl

theorem setitem_allocated (st : ListPayload α) (i : Int) (v : α) :
    (setitem st i v).allocated = st.allocated := rfl

theorem resize_preserves_inv (st : ListPayload α) (ns : Int)
    (hst : payload_inv st) (hns : 0 ≤ ns) : payload_inv (resize st ns).1 := by
  obtain ⟨h0, h1⟩ := hst
  have hcap : 0 ≤ st.allocated := le_trans h0 h1
  have hle := ashr_two_le hcap
  have hnn := ashr_two_nonneg hns
  rw [resize_eq]
  refine ⟨hns, ?_⟩
  show ns ≤ if st.allocated < ns then 8 + (ns + ashr ns 2)
            else if ns < ashr st.allocated 2 then ns else st.allocated
  split_ifs with ha hb <;> omega

theorem list_append_preserves_inv (st : ListPayload α) (v : α)
    (hst : payload_inv st) : payload_inv (list_append st v) := by
  have h := resize_preserves_inv st (st.size + 1) hst (by have := hst.1; omega)
  unfold list_append
  obtain ⟨ha, hb⟩ := h
  exact ⟨by simpa [setitem] using ha, by simpa [setitem] using hb⟩

theorem foldl_append_preserves_inv (vs : List α) (st : ListPayload α)
    (hst : payload_inv st) : payload_inv (vs.foldl list_append st) := by
  induction vs generalizing st with
  | nil => exact hst
  | cons v vs ih => exact ih _ (list_append_preserves_inv st v hst)

/-! ### Claims about the resize policy and the payload invariant -/

/-- Claim C2: for every payload state and requested `new_size`, `resize`
reallocates down to capacity exactly `new_size` when
`capacity >> 2 > new_size`, reallocates up to capacity
`new_size + (new_size >> 2) + 8` when `capacity < new_size`, otherwise
keeps the allocation, and in every case finishes by setting `size` to
`new_size`.  (Payload states have nonnegative capacity.) -/
theorem claim_C2 (st : ListPayload α) (new_size : Int) (hcap : 0 ≤ st.allocated) :
    ((resize st new_size).1).size = new_size
    ∧ (new_size < ashr st.allocated 2 →
        ((resize st new_size).1).allocated = new_size
        ∧ (resize st new_size).2 = true)
    ∧ (st.allocated < new_size →
        ((resize st new_size).1).allocated = new_size + ashr new_size 2 + 8
        ∧ (resize st new_size).2 = true)
    ∧ (¬ new_size < ashr st.allocated 2 → ¬ st.allocated < new_size →
        ((resize st new_size).1).allocated = st.allocated
        ∧ (resize st new_size).2 = false) := by
  have hle := ashr_two_le hcap
  rw [resize_eq]
  refine ⟨rfl, ?_, ?_, ?_⟩
  · intro h
    have hnot : ¬ st.allocated < new_size := by omega
    constructor
    · show (if st.allocated < new_size then _ else _) = new_size
      rw [if_neg hnot, if_pos h]
    · simp [h]
  · intro h
    constructor
    · show (if st.allocated < new_size then _ else _) = new_size + ashr new_size 2 + 8
      rw [if_pos h]; omega
    · simp [h]
  · intro h1 h2
    constructor
    · show (if st.allocated < new_size then _ else _) = st.allocated
      rw [if_neg h2, if_neg h1]
    · simp [h1, h2]

/-- Witness for C2: growing an empty payload to size 1 over-allocates to
`1 + (1 >> 2) + 8 = 9`. -/
theorem claim_C2_witness :
    ((resize (allocate Int 0) 1).1).size = 1
    ∧ ((resize (allocate Int 0) 1).1).allocated = 1 + ashr 1 2 + 8
    ∧ (resize (allocate Int 0) 1).2 = true := by
  have h := claim_C2 (allocate Int 0) 1 (by decide)
  exact ⟨h.1, (h.2.2.1 (by decide)).1, (h.2.2.1 (by decide)).2⟩

/-- Counterexample to claim C3 as stated: after a single `append` on an
empty list the payload has `size = 1`, `capacity = 9` (so
`capacity >= size`, a state reached by a completed operation), yet
`resize(size)` does reallocate, because the shrink branch
`capacity >> 2 > size` fires (`9 >> 2 = 2 > 1`). -/
theorem claim_C3_counterexample :
    (list_append (allocate Int 0) 37).size
      ≤ (list_append (allocate Int 0) 37).allocated
    ∧ (resize (list_append (allocate Int 0) 37)
        (list_append (allocate Int 0) 37).size).2 = true := by
  decide

/-- Claim C3 (amended): calling `resize` with the current `size` leaves the
size and every stored item unchanged; it performs no reallocation when
`capacity >> 2 <= size`, but when `capacity >> 2 > size` it reallocates,
shrinking the capacity to exactly `size`. -/
theorem claim_C3 (st : ListPayload α) (h0 : 0 ≤ st.size)
    (h1 : st.size ≤ st.allocated) :
    ((resize st st.size).1).size = st.size
    ∧ ((resize st st.size).1).data = st.data
    ∧ (st.size < ashr st.allocated 2 →
        (resize st st.size).2 = true
        ∧ ((resize st st.size).1).allocated = st.size)
    ∧ (ashr st.allocated 2 ≤ st.size →
        (resize st st.size).2 = false
        ∧ ((resize st st.size).1).allocated = st.allocated) := by
  have hnot : ¬ st.allocated < st.size := by omega
  rw [resize_eq]
  refine ⟨rfl, rfl, ?_, ?_⟩
  · intro h
    constructor
    · simp [h, hnot]
    · show (if st.allocated < st.size then _ else _) = st.size
      rw [if_neg hnot, if_pos h]
  · intro h
    have hnot2 : ¬ st.size < ashr st.allocated 2 := by omega
    constructor
    · simp [hnot, hnot2]
    · show (if st.allocated < st.size then _ else _) = st.allocated
      rw [if_neg hnot, if_neg hnot2]

/-- Witness for C3 (amended): on `[1, 2, 3]` with capacity 3,
`resize(3)` does not reallocate (`3 >> 2 = 0 <= 3`). -/
theorem claim_C3_witness :
    ((resize exList3 exList3.size).1).size = exList3.size
    ∧ (resize exList3 exList3.size).2 = false
    ∧ ((resize exList3 exList3.size).1).allocated = exList3.allocated := by
  have h := claim_C3 exList3 (by decide) (by decide)
  exact ⟨h.1, (h.2.2.2 (by decide)).1, (h.2.2.2 (by decide)).2⟩

/-- Claim C9: the payload invariant `0 <= size <= capacity` holds after
`allocate` completes (for a nonnegative request) and is preserved by every
completed `resize` to a nonnegative size; consequently it holds after any
sequence of `append` calls starting from an empty list. -/
theorem claim_C9 [Inhabited α] (n ns : Int) (st : ListPayload α) (vs : List α)
    (hn : 0 ≤ n) (hst : payload_inv st) (hns : 0 ≤ ns) :
    payload_inv (allocate α n)
    ∧ payload_inv (resize st ns).1
    ∧ payload_inv (vs.foldl list_append (allocate α 0)) := by
  refine ⟨⟨le_refl 0, hn⟩, resize_preserves_inv st ns hst hns, ?_⟩
  exact foldl_append_preserves_inv vs _ ⟨le_refl 0, le_refl 0⟩

/-- Witness for C9 at concrete inputs: allocation of 2 slots, a resize of
the empty payload to 1, and the appends building `[1, 2, 3]`. -/
theorem claim_C9_witness :
    payload_inv (allocate Int 2)
    ∧ payload_inv (resize (allocate Int 0) 1).1
    ∧ payload_inv ([1, 2, 3].foldl list_append (allocate Int 0)) :=
  claim_C9 2 1 (allocate Int 0) [1, 2, 3] (by decide) (by decide) (by decide)

/-! ### Claims about single-element access and the slice arithmetic -/

/-- Counterexample to claim C1 as stated: on the 3-element list `[1, 2, 3]`
the single-element `getitem` at index 5 (already nonnegative, so
`fix_index` leaves it at 5, outside `[0, 3)`) does not fail with an
IndexOutOfRange condition — the generated code contains no bounds guard
and the raw load succeeds, returning whatever memory holds at slot 5. -/
theorem claim_C1_counterexample :
    getitem_list exList3 5 = Except.ok 7 ∧ exList3.size ≤ 5 := by
  constructor
  · rfl
  · decide

/-- Claim C1 (amended): single-element `getitem` and `setitem` first
normalize the index with `fix_index` (adding `size` if negative) and then
access the storage directly, with no bounds guard: the access succeeds
for every integer index, in range or not, and no IndexOutOfRange
condition is ever raised; the slot accessed is `fix_index(index, size)`. -/
theorem claim_C1 (st : ListPayload α) (index : Int) (value : α) :
    (∀ e, getitem_list st index ≠ Except.error e)
    ∧ getitem_list st index = Except.ok (st.data (fix_index index st.size))
    ∧ (∀ e, setitem_list st index value ≠ Except.error e)
    ∧ (∀ st2, setitem_list st index value = Except.ok st2 →
        st2.size = st.size
        ∧ st2.data (fix_index index st.size) = value
        ∧ ∀ j, j ≠ fix_index index st.size → st2.data j = st.data j) := by
  constructor
  · intro e h
    cases h
  constructor
  · rfl
  constructor
  · intro e h
    cases h
  · intro st2 h
    have hst2 : st2 = setitem st (fix_index index st.size) value :=
      (Except.ok.inj h).symm
    subst hst2
    refine ⟨rfl, ?_, fun j hj => ?_⟩
    · simp [setitem]
    · simp [setitem, hj]

/-- Witness for C1 (amended): reading `[1, 2, 3]` at index `-1` yields the
last element, and writing index 1 stores at slot 1. -/
theorem claim_C1_witness :
    getitem_list exList3 (-1) = Except.ok (exList3.data (fix_index (-1) exList3.size))
    ∧ getitem_list exList3 (-1) = Except.ok 3
    ∧ (setitem exList3 (fix_index 1 exList3.size) 9).data 1 = 9 := by
  have h := claim_C1 exList3 (-1) (9 : Int)
  refine ⟨h.2.1, ?_, ?_⟩
  · rw [h.2.1]
    rfl
  · have h2 := claim_C1 exList3 1 (9 : Int)
    exact (h2.2.2.2 (setitem exList3 (fix_index 1 exList3.size) 9) rfl).2.1

/-- Claim C4: for every already-normalized slice with `step != 0`,
`get_slice_length` returns, with `delta = stop - start`: for `step > 0`,
`0` when `delta <= 0` and `(delta - 1) / step + 1` otherwise; for
`step < 0`, `0` when `delta >= 0` and `(delta + 1) / step + 1` otherwise
(division truncating toward zero); and the result is never negative. -/
theorem claim_C4 (start stop step : Int) (hstep : step ≠ 0) :
    (0 < step →
      get_slice_length start stop step =
        if stop - start ≤ 0 then 0 else Int.tdiv (stop - start - 1) step + 1)
    ∧ (step < 0 →
      get_slice_length start stop step =
        if 0 ≤ stop - start then 0 else Int.tdiv (stop - start + 1) step + 1)
    ∧ 0 ≤ get_slice_length start stop step := by
  unfold get_slice_length
  refine ⟨?_, ?_, ?_⟩
  · intro hpos
    have hnn : ¬ step < 0 := by omega
    simp only [hnn, if_false, decide_eq_true_eq]
    split_ifs with h
    · rfl
    · omega
  · intro hneg
    simp only [hneg, if_true, decide_eq_true_eq]
    split_ifs with h
    · rfl
    · omega
  · rcases lt_or_gt_of_ne hstep with hneg | hpos
    · simp only [hneg, if_true, decide_eq_true_eq]
      split_ifs with h
      · omega
      · have h2 : 0 ≤ Int.tdiv (stop - start + 1) step := by
          have heq : Int.tdiv (stop - start + 1) step =
              Int.tdiv (-(stop - start + 1)) (-step) := by
            rw [Int.neg_tdiv, Int.tdiv_neg, neg_neg]
          rw [heq]
          exact Int.tdiv_nonneg (by omega) (by omega)
        omega
    · have hnn : ¬ step < 0 := by omega
      simp only [hnn, if_false, decide_eq_true_eq]
      split_ifs with h
      · omega
      · have h2 : 0 ≤ Int.tdiv (stop - start - 1) step :=
          Int.tdiv_nonneg (by omega) (by omega)
        omega

/-- Witness for C4: the normalized slice `(0, 5, 2)` visits 3 indices, and
the degenerate reversed slice `(4, 4, -1)` visits none. -/
theorem claim_C4_witness :
    get_slice_length 0 5 2 = Int.tdiv (5 - 0 - 1) 2 + 1
    ∧ get_slice_length 0 5 2 = 3
    ∧ get_slice_length 4 4 (-1) = 0
    ∧ 0 ≤ get_slice_length 7 0 3 := by
  have h1 := (claim_C4 0 5 2 (by decide)).1 (by decide)
  have h2 := (claim_C4 4 4 (-1) (by decide)).2.1 (by decide)
  have h3 := (claim_C4 7 0 3 (by decide)).2.2
  refine ⟨?_, ?_, ?_, h3⟩
  · rw [h1]; decide
  · rw [h1]; decide
  · rw [h2]; decide

/-- The normalization policy of claim C5, written exactly as the spec
words it: each bound is independently `fix_index`-ed, then for positive
step values below 0 clamp to 0 and values at or above `size` clamp to
`size`, while for negative step they clamp to `-1` and `size - 1`. -/
def fix_slice_spec (start stop step size : Int) : Int × Int :=
  let clamp : Int → Int := fun b =>
    let f := fix_index b size
    if 0 < step then
      if f < 0 then 0 else if size ≤ f then size else f
    else
      if f < 0 then -1 else if size ≤ f then size - 1 else f
  (clamp start, clamp stop)

/-- Claim C5: for every raw slice with nonzero step and every sequence
length `size`, `fix_slice` normalizes `start` and `stop` independently by
first adding `size` to a negative bound and then clamping: for
`step > 0`, values below 0 to 0 and values at or above `size` to `size`;
for `step < 0`, values below 0 to `-1` and values at or above `size` to
`size - 1`.  (Sequence sizes are nonnegative.) -/
theorem claim_C5 (start stop step size : Int) (hstep : step ≠ 0)
    (hsize : 0 ≤ size) :
    fix_slice start stop step size = fix_slice_spec start stop step size := by
  unfold fix_slice fix_slice_spec fix_bound
  rcases lt_or_gt_of_ne hstep with hneg | hpos
  · have h1 : ¬ 0 < step := by omega
    simp only [hneg, if_true, h1, if_false]
    rw [Prod.mk.injEq]
    constructor <;> (split_ifs <;> first | rfl | omega)
  · have h1 : ¬ step < 0 := by omega
    simp only [h1, if_false, hpos, if_true]
    rw [Prod.mk.injEq]
    constructor <;> (split_ifs <;> first | rfl | omega)

/-- Witness for C5: slice `(-10, -1, -1)` on a sequence of size 3
normalizes to start `-1` (underflow clamp for negative step) and stop `2`
(wraparound). -/
theorem claim_C5_witness :
    fix_slice (-10) (-1) (-1) 3 = fix_slice_spec (-10) (-1) (-1) 3
    ∧ fix_slice (-10) (-1) (-1) 3 = (-1, 2) := by
  have h := claim_C5 (-10) (-1) (-1) 3 (by decide) (by decide)
  exact ⟨h, by rw [h]; decide⟩

/-! ### Claims about pop and the iterator -/

theorem move_data_lt (st : ListPayload α) (d s c j : Int) (h : j < d) :
    (move st d s c).data j = st.data j := by
  unfold move
  simp only
  rw [if_neg (by omega)]

theorem move_data_in (st : ListPayload α) (d s c j : Int) (h1 : d ≤ j)
    (h2 : j < d + c) : (move st d s c).data j = st.data (s + (j - d)) := by
  unfold move
  simp only
  rw [if_pos ⟨h1, h2⟩]

/-- Claim C6: `pop(i)` fails with the empty-container condition when
`size == 0`, fails with the out-of-range condition when the
`fix_index`-normalized `i` lies outside `[0, size)`, and otherwise
returns the item at the normalized index, shifts the tail one slot left
over it, and decreases the size by exactly one. -/
theorem claim_C6 (st : ListPayload α) (i : Int) :
    (st.size = 0 →
      list_pop st i = Except.error (ListErr.indexError ("pop from empty list")))
    ∧ (st.size ≠ 0 → is_out_of_bounds (fix_index i st.size) st.size = true →
        list_pop st i = Except.error (ListErr.indexError ("pop index out of range")))
    ∧ (st.size ≠ 0 → is_out_of_bounds (fix_index i st.size) st.size = false →
        (list_pop st i).map Prod.fst = Except.ok (st.data (fix_index i st.size))
        ∧ (list_pop st i).map (fun p => p.2.size) = Except.ok (st.size - 1)
        ∧ (∀ j : Int, j < fix_index i st.size →
            (list_pop st i).map (fun p => p.2.data j) = Except.ok (st.data j))
        ∧ (∀ j : Int, fix_index i st.size ≤ j → j < st.size - 1 →
            (list_pop st i).map (fun p => p.2.data j) = Except.ok (st.data (j + 1)))) := by
  refine ⟨fun h0 => ?_, fun h0 hb => ?_, fun h0 hb => ?_⟩
  · simp only [list_pop]
    rw [if_pos h0]
  · simp only [list_pop]
    rw [if_neg h0, if_pos hb]
  · have hb2 : ¬ (is_out_of_bounds (fix_index i st.size) st.size = true) := by
      rw [hb]
      exact Bool.false_ne_true
    have hpop : list_pop st i =
        Except.ok (getitem st (fix_index i st.size),
          (resize (move st (fix_index i st.size) (fix_index i st.size + 1)
              (st.size - 1 - fix_index i st.size)) (st.size - 1)).1) := by
      simp only [list_pop]
      rw [if_neg h0, if_neg hb2]
    rw [hpop]
    refine ⟨rfl, ?_, fun j hj => ?_, fun j hj1 hj2 => ?_⟩
    · simp only [Except.map]
      rw [resize_size]
    · simp only [Except.map]
      rw [resize_data, move_data_lt _ _ _ _ _ hj]
    · simp only [Except.map]
      rw [resize_data, move_data_in _ _ _ _ _ hj1 (by omega)]
      have harg : fix_index i st.size + 1 + (j - fix_index i st.size) = j + 1 := by
        omega
      rw [harg]

/-- Witness for C6: `[1, 2, 3].pop(1)` returns `2` and leaves `[1, 3]`
(size 2, slot 0 holding 1, slot 1 holding 3). -/
theorem claim_C6_witness :
    (list_pop exList3 1).map Prod.fst = Except.ok 2
    ∧ (list_pop exList3 1).map (fun p => p.2.size) = Except.ok 2
    ∧ (list_pop exList3 1).map (fun p => p.2.data 0) = Except.ok 1
    ∧ (list_pop exList3 1).map (fun p => p.2.data 1) = Except.ok 3 := by
  have h := (claim_C6 exList3 1).2.2 (by decide) (by decide)
  refine ⟨?_, ?_, ?_, ?_⟩
  · rw [h.1]
    rfl
  · rw [h.2.1]
    rfl
  · rw [h.2.2.1 0 (by decide)]
    rfl
  · rw [h.2.2.2 1 (by decide) (by decide)]
    rfl

/-- Counterexample to claim C8 as stated: an iterator over an empty list
observes exhaustion (`advance` yields nothing and leaves the cursor at 0);
after the shared list is grown by an `append`, the same iterator's next
`advance` yields the appended value — exhaustion is not a terminal state
under growth, because the bounds check re-reads the payload's `size`. -/
theorem claim_C8_counterexample :
    (iternext_listiter (allocate Int 0) 0).1 = none
    ∧ (iternext_listiter (allocate Int 0) 0).2 = 0
    ∧ (iternext_listiter (list_append (allocate Int 0) 5) 0).1 = some 5 := by
  decide

/-- Claim C8 (amended): an `advance()` call that observes
`index >= size` yields nothing and leaves the cursor unchanged, so every
subsequent `advance()` also yields nothing as long as the shared list's
size remains at most the cursor (in particular when the list is not
mutated); but a mutation growing the list beyond the cursor makes
`advance()` yield values again. -/
theorem claim_C8 (payload : ListPayload α) (index : Int) :
    (payload.size ≤ index → iternext_listiter payload index = (none, index))
    ∧ (index < payload.size →
        iternext_listiter payload index = (some (payload.data index), index + 1)) := by
  constructor
  · intro h
    unfold iternext_listiter
    rw [if_neg (by omega)]
  · intro h
    unfold iternext_listiter
    rw [if_pos h]
    rfl

/-- Witness for C8 (amended): on a payload of size 3 an iterator at cursor
3 is exhausted, and at cursor 2 it yields the last element. -/
theorem claim_C8_witness :
    iternext_listiter exList3 3 = (none, 3)
    ∧ iternext_listiter exList3 2 = (some (exList3.data 2), 3) :=
  ⟨(claim_C8 exList3 3).1 (by decide), (claim_C8 exList3 2).2 (by decide)⟩

/-! ### Claims about slice assignment and self-extension -/

theorem write_slice_loop_size (dest src : ListPayload α) (start step : Int)
    (n : Nat) : (write_slice_loop dest src start step n).size = dest.size := by
  induction n with
  | zero => rfl
  | succ m ih =>
    simp only [write_slice_loop, setitem_size]
    exact ih

theorem write_slice_loop_data_hit (dest src : ListPayload α) (start step : Int)
    (hstep : step ≠ 0) (n : Nat) :
    ∀ k : Nat, k < n →
      (write_slice_loop dest src start step n).data (start + (k : Int) * step)
        = src.data (k : Int) := by
  induction n with
  | zero =>
    intro k hk
    omega
  | succ m ih =>
    intro k hk
    simp only [write_slice_loop, setitem]
    by_cases hkm : k = m
    · subst hkm
      rw [if_pos rfl]
      rfl
    · have hne : start + (k : Int) * step ≠ start + (m : Int) * step := by
        intro he
        have h2 : (k : Int) * step = (m : Int) * step := by omega
        have h3 : (k : Int) = (m : Int) := mul_right_cancel₀ hstep h2
        exact hkm (by exact_mod_cast h3)
      rw [if_neg hne]
      exact ih k (by omega)

theorem write_slice_loop_data_miss (dest src : ListPayload α) (start step : Int)
    (n : Nat) :
    ∀ j : Int, (∀ k : Nat, k < n → j ≠ start + (k : Int) * step) →
      (write_slice_loop dest src start step n).data j = dest.data j := by
  induction n with
  | zero =>
    intro j _
    rfl
  | succ m ih =>
    intro j hj
    simp only [write_slice_loop, setitem]
    rw [if_neg (hj m (by omega))]
    exact ih j (fun k hk => hj k (by omega))

/-- Claim C7: extended-slice assignment (`step != 1`) fails with the
size-mismatch condition (before any mutation of the destination) whenever
the source length differs from the slice's computed length, and otherwise
overwrites each traversed slice position `start + k * step` with the
`k`-th source item, leaving every other slot and the destination size
unchanged. -/
theorem claim_C7 (dest src : ListPayload α) (start stop step : Int)
    (h0 : step ≠ 0) (h1 : step ≠ 1) :
    (src.size ≠ get_slice_length (fix_slice start stop step dest.size).1
        (fix_slice start stop step dest.size).2 step →
      setitem_list_slice dest start stop step src =
        Except.error
          (ListErr.valueError ("cannot resize extended list slice with step != 1")))
    ∧ (src.size = get_slice_length (fix_slice start stop step dest.size).1
        (fix_slice start stop step dest.size).2 step →
      ((setitem_list_slice dest start stop step src).map (fun d => d.size)
          = Except.ok dest.size)
      ∧ (∀ k : Nat, (k : Int) <
            get_slice_length (fix_slice start stop step dest.size).1
              (fix_slice start stop step dest.size).2 step →
          (setitem_list_slice dest start stop step src).map
              (fun d => d.data ((fix_slice start stop step dest.size).1 + (k : Int) * step))
            = Except.ok (src.data (k : Int)))
      ∧ (∀ j : Int,
          (∀ k : Nat, (k : Int) <
              get_slice_length (fix_slice start stop step dest.size).1
                (fix_slice start stop step dest.size).2 step →
            j ≠ (fix_slice start stop step dest.size).1 + (k : Int) * step) →
          (setitem_list_slice dest start stop step src).map (fun d => d.data j)
            = Except.ok (dest.data j))) := by
  constructor
  · intro hne
    simp only [setitem_list_slice]
    rw [if_neg h0, if_neg h1, if_pos (by omega :
      src.size - get_slice_length (fix_slice start stop step dest.size).1
        (fix_slice start stop step dest.size).2 step ≠ 0)]
  · intro heq
    have hz : ¬ (src.size - get_slice_length (fix_slice start stop step dest.size).1
        (fix_slice start stop step dest.size).2 step ≠ 0) := by omega
    have hok : setitem_list_slice dest start stop step src =
        Except.ok (write_slice_loop dest src
          (fix_slice start stop step dest.size).1 step
          (get_slice_length (fix_slice start stop step dest.size).1
            (fix_slice start stop step dest.size).2 step).toNat) := by
      simp only [setitem_list_slice]
      rw [if_neg h0, if_neg h1, if_neg hz]
    rw [hok]
    refine ⟨?_, fun k hk => ?_, fun j hj => ?_⟩
    · simp only [Except.map]
      rw [write_slice_loop_size]
    · simp only [Except.map]
      rw [write_slice_loop_data_hit dest src _ step h0 _ k (by omega)]
    · simp only [Except.map]
      rw [write_slice_loop_data_miss dest src _ step _ j
        (fun k hk => hj k (by omega))]

/-- Witness for C7: assigning `[40, 50]` into `[1, 2, 3][0:3:2]` (slice
length 2) keeps size 3 and produces `[40, 2, 50]`, while assigning the
3-element `[1, 2, 3]` into the same slice fails with the size-mismatch
condition. -/
theorem claim_C7_witness :
    (setitem_list_slice exList3 0 3 2 exSrc2).map (fun d => d.size) = Except.ok 3
    ∧ (setitem_list_slice exList3 0 3 2 exSrc2).map (fun d => d.data 0)
        = Except.ok 40
    ∧ (setitem_list_slice exList3 0 3 2 exSrc2).map (fun d => d.data 2)
        = Except.ok 50
    ∧ (setitem_list_slice exList3 0 3 2 exSrc2).map (fun d => d.data 1)
        = Except.ok 2
    ∧ setitem_list_slice exList3 0 3 2 exList3 =
        Except.error
          (ListErr.valueError ("cannot resize extended list slice with step != 1")) := by
  have hlen : get_slice_length (fix_slice 0 3 2 exList3.size).1
      (fix_slice 0 3 2 exList3.size).2 2 = 2 := by decide
  have hstart : (fix_slice 0 3 2 exList3.size).1 = 0 := by decide
  have h := (claim_C7 exList3 exSrc2 0 3 2 (by decide) (by decide)).2 (by decide)
  have herr := (claim_C7 exList3 exList3 0 3 2 (by decide) (by decide)).1 (by decide)
  have hm : ∀ k : Nat, (k : Int) < get_slice_length (fix_slice 0 3 2 exList3.size).1
      (fix_slice 0 3 2 exList3.size).2 2 →
      (1 : Int) ≠ (fix_slice 0 3 2 exList3.size).1 + (k : Int) * 2 := by
    intro k hk
    rw [hlen] at hk
    rw [hstart]
    omega
  refine ⟨?_, ?_, ?_, ?_, herr⟩
  · rw [h.1]
    rfl
  · exact h.2.1 0 (by decide)
  · exact h.2.1 1 (by decide)
  · exact h.2.2 1 hm

theorem extend_self_loop_size (st : ListPayload α) (off : Int) (n : Nat) :
    (extend_self_loop st off n).size = st.size := by
  induction n with
  | zero => rfl
  | succ m ih =>
    simp only [extend_self_loop, setitem_size]
    exact ih

theorem extend_self_loop_data_low (st : ListPayload α) (off : Int) (n : Nat)
    (j : Int) (hj : j < off) :
    (extend_self_loop st off n).data j = st.data j := by
  induction n with
  | zero => rfl
  | succ m ih =>
    simp only [extend_self_loop, setitem]
    rw [if_neg (by omega : j ≠ (m : Int) + off)]
    exact ih

theorem extend_self_loop_data_hit (st : ListPayload α) (off : Int) (n : Nat) :
    ∀ k : Nat, k < n → (n : Int) ≤ off →
      (extend_self_loop st off n).data ((k : Int) + off) = st.data (k : Int) := by
  induction n with
  | zero =>
    intro k hk _
    omega
  | succ m ih =>
    intro k hk hn
    simp only [extend_self_loop, setitem]
    by_cases hkm : k = m
    · subst hkm
      rw [if_pos rfl]
      exact extend_self_loop_data_low st off k (k : Int) (by omega)
    · have hne : (k : Int) + off ≠ (m : Int) + off := by omega
      rw [if_neg hne]
      exact ih k (by omega) (by omega)

/-- Claim C10: extending a list with itself (`a += a` over one shared
payload) doubles the size and makes both halves equal to the original
contents: the source size is read once before the resize, the grow-resize
preserves the prefix, and the copy reads `[0, n)` while writing the
disjoint range `[n, 2n)` through the shared payload. -/
theorem claim_C10 (st : ListPayload α) (hinv : payload_inv st) :
    (list_add_inplace_self st).size = 2 * st.size
    ∧ (∀ j : Int, 0 ≤ j → j < st.size →
        (list_add_inplace_self st).data j = st.data j)
    ∧ (∀ j : Int, 0 ≤ j → j < st.size →
        (list_add_inplace_self st).data (st.size + j) = st.data j) := by
  obtain ⟨h0, h1⟩ := hinv
  have key : list_add_inplace_self st =
      extend_self_loop
        { (resize st (st.size + st.size)).1 with size := st.size + st.size }
        st.size st.size.toNat := by
    simp only [list_add_inplace_self, list_extend_list_self]
  have hdata :
      ({ (resize st (st.size + st.size)).1 with
          size := st.size + st.size } : ListPayload α).data = st.data :=
    resize_data st (st.size + st.size)
  rw [key]
  refine ⟨?_, fun j hj0 hj1 => ?_, fun j hj0 hj1 => ?_⟩
  · rw [extend_self_loop_size]
    show st.size + st.size = 2 * st.size
    omega
  · rw [extend_self_loop_data_low _ st.size _ j hj1]
    exact congrFun hdata j
  · have hcast : st.size + j = ((j.toNat : Int)) + st.size := by omega
    rw [hcast,
      extend_self_loop_data_hit _ st.size st.size.toNat j.toNat (by omega) (by omega)]
    rw [congrFun hdata ((j.toNat : Int))]
    rw [Int.toNat_of_nonneg hj0]

/-- Witness for C10: `[1, 2, 3] += [1, 2, 3]` (aliased) yields size 6 with
slot 1 and slot 4 both holding the original slot 1. -/
theorem claim_C10_witness :
    (list_add_inplace_self exList3).size = 2 * exList3.size
    ∧ (list_add_inplace_self exList3).data 1 = exList3.data 1
    ∧ (list_add_inplace_self exList3).data (exList3.size + 1) = exList3.data 1 := by
  have h := claim_C10 exList3 (by decide)
  exact ⟨h.1, h.2.1 1 (by decide) (by decide), h.2.2 1 (by decide) (by decide)⟩

end NumbaList
